import Mathlib

/-!
Shallow embedding of the WASI bridge of `src/lib/pandoc/wasi.ts` and the
instantiation driver of `src/lib/pandoc/index.ts` / the page's `render`
helper.  Guest linear memory is a list of bytes (`List Nat`), `DataView`
reads/writes become explicit little-endian byte manipulation, streams become
lists of byte chunks, and JavaScript number arithmetic is modelled as exact
integer/rational arithmetic.
-/

namespace MyPandoc

/-! ### Guest linear memory -/

/-- Reading one byte of guest memory (out-of-range reads default to 0;
theorems carry in-bounds hypotheses where the source would trap). -/
def getByte (mem : List Nat) (i : Nat) : Nat := mem.getD i 0

/-- `Uint8Array.prototype.set(data, off)`: overlay `data` on `mem` starting
at offset `off`. -/
def writeBytes : List Nat → Nat → List Nat → List Nat
  | mem, _, [] => mem
  | mem, off, b :: bs => writeBytes (mem.set off b) (off + 1) bs

/-- Observing `n` bytes of guest memory starting at `off`. -/
def readBytes (mem : List Nat) (off n : Nat) : List Nat :=
  (List.range n).map fun j => getByte mem (off + j)

/-- `DataView.prototype.setUint32(p, v, true)`: little-endian 4-byte store
(the value is wrapped modulo 2^32, as `ToUint32` does). -/
def setU32 (mem : List Nat) (p v : Nat) : List Nat :=
  writeBytes mem p [v % 256, v / 256 % 256, v / 65536 % 256, v / 16777216 % 256]

/-- `DataView.prototype.getUint32(p, true)`: little-endian 4-byte load. -/
def getU32 (mem : List Nat) (p : Nat) : Nat :=
  getByte mem p + 256 * getByte mem (p + 1) + 65536 * getByte mem (p + 2)
    + 16777216 * getByte mem (p + 3)

/-- `DataView.prototype.setBigUint64(p, v, true)`: little-endian 8-byte store
(the value is wrapped modulo 2^64, as `ToBigUint64` does). -/
def setU64 (mem : List Nat) (p v : Nat) : List Nat :=
  writeBytes mem p [v % 256, v / 256 % 256, v / 65536 % 256, v / 16777216 % 256,
    v / 4294967296 % 256, v / 1099511627776 % 256, v / 281474976710656 % 256,
    v / 72057594037927936 % 256]

/-- Little-endian 8-byte load. -/
def getU64 (mem : List Nat) (p : Nat) : Nat :=
  getByte mem p + 256 * getByte mem (p + 1) + 65536 * getByte mem (p + 2)
    + 16777216 * getByte mem (p + 3) + 4294967296 * getByte mem (p + 4)
    + 1099511627776 * getByte mem (p + 5) + 281474976710656 * getByte mem (p + 6)
    + 72057594037927936 * getByte mem (p + 7)

theorem length_writeBytes (data : List Nat) :
    ∀ (mem : List Nat) (off : Nat), (writeBytes mem off data).length = mem.length := by
  induction data with
  | nil => intro mem off; rfl
  | cons b bs ih => intro mem off; simp [writeBytes, ih]

theorem getByte_set_ne (mem : List Nat) (j b i : Nat) (h : j ≠ i) :
    getByte (mem.set j b) i = getByte mem i := by
  simp [getByte, List.getD, List.getElem?_set_ne h]

theorem getByte_set_self (mem : List Nat) (j b : Nat) (h : j < mem.length) :
    getByte (mem.set j b) j = b := by
  simp [getByte, List.getD, List.getElem?_set_self h]

theorem getByte_writeBytes_lo (data : List Nat) :
    ∀ (mem : List Nat) (off i : Nat), i < off →
      getByte (writeBytes mem off data) i = getByte mem i := by
  induction data with
  | nil => intro mem off i _; rfl
  | cons b bs ih =>
    intro mem off i hi
    rw [writeBytes, ih _ _ _ (by omega), getByte_set_ne _ _ _ _ (by omega)]

theorem getByte_writeBytes_hi (data : List Nat) :
    ∀ (mem : List Nat) (off i : Nat), off + data.length ≤ i →
      getByte (writeBytes mem off data) i = getByte mem i := by
  induction data with
  | nil => intro mem off i _; rfl
  | cons b bs ih =>
    intro mem off i hi
    simp only [List.length_cons] at hi
    rw [writeBytes, ih _ _ _ (by omega), getByte_set_ne _ _ _ _ (by omega)]

theorem getByte_writeBytes_mid (data : List Nat) :
    ∀ (mem : List Nat) (off j : Nat), j < data.length →
      off + data.length ≤ mem.length →
      getByte (writeBytes mem off data) (off + j) = data.getD j 0 := by
  induction data with
  | nil => intro mem off j h _; simp at h
  | cons b bs ih =>
    intro mem off j hj hlen
    simp only [List.length_cons] at hj hlen
    cases j with
    | zero =>
      rw [writeBytes, getByte_writeBytes_lo _ _ _ _ (by omega)]
      simpa using getByte_set_self mem off b (by omega)
    | succ j =>
      have := ih (mem.set off b) (off + 1) j (by omega) (by simpa using by omega)
      rw [writeBytes]
      have harg : off + (j + 1) = off + 1 + j := by omega
      rw [harg, this]
      rfl

theorem readBytes_eq_of_getByte (mem mem' : List Nat) (off n : Nat)
    (h : ∀ j, j < n → getByte mem' (off + j) = getByte mem (off + j)) :
    readBytes mem' off n = readBytes mem off n := by
  unfold readBytes
  exact List.map_congr_left (fun j hj => h j (List.mem_range.mp hj))

theorem readBytes_getD (data : List Nat) (mem : List Nat) (off : Nat)
    (h : ∀ j, j < data.length → getByte mem (off + j) = data.getD j 0) :
    readBytes mem off data.length = data := by
  unfold readBytes
  induction data generalizing off with
  | nil => rfl
  | cons b bs ih =>
    simp only [List.length_cons] at h
    simp only [List.length_cons, List.range_succ_eq_map, List.map_cons, List.map_map]
    have hh : getByte mem (off + 0) = b := by simpa using h 0 (by omega)
    have ht : List.map ((fun j => getByte mem (off + j)) ∘ Nat.succ) (List.range bs.length)
        = bs := by
      have := ih (off + 1) (fun j hj => by
        have := h (j + 1) (by omega)
        simpa [Nat.add_assoc, Nat.add_comm 1 j] using this)
      simpa [Function.comp, Nat.add_assoc, Nat.add_comm 1] using this
    rw [hh, ht]

theorem readBytes_writeBytes (data mem : List Nat) (off : Nat)
    (h : off + data.length ≤ mem.length) :
    readBytes (writeBytes mem off data) off data.length = data :=
  readBytes_getD data _ off fun j hj => getByte_writeBytes_mid data mem off j hj h

theorem length_setU32 (mem : List Nat) (p v : Nat) :
    (setU32 mem p v).length = mem.length := length_writeBytes _ mem p

theorem getByte_setU32_lo (mem : List Nat) (p v i : Nat) (h : i < p) :
    getByte (setU32 mem p v) i = getByte mem i := getByte_writeBytes_lo _ mem p i h

theorem getByte_setU32_hi (mem : List Nat) (p v i : Nat) (h : p + 4 ≤ i) :
    getByte (setU32 mem p v) i = getByte mem i := getByte_writeBytes_hi _ mem p i h

theorem getU32_congr (mem mem' : List Nat) (p : Nat)
    (h : ∀ k, k < 4 → getByte mem' (p + k) = getByte mem (p + k)) :
    getU32 mem' p = getU32 mem p := by
  unfold getU32
  have h0 := h 0 (by omega)
  have h1 := h 1 (by omega)
  have h2 := h 2 (by omega)
  have h3 := h 3 (by omega)
  simp only [Nat.add_zero] at h0
  rw [h0, h1, h2, h3]

theorem getU32_setU32 (mem : List Nat) (p v : Nat)
    (hp : p + 4 ≤ mem.length) (hv : v < 4294967296) :
    getU32 (setU32 mem p v) p = v := by
  have hb : ∀ j, j < 4 →
      getByte (setU32 mem p v) (p + j) =
        [v % 256, v / 256 % 256, v / 65536 % 256, v / 16777216 % 256].getD j 0 := by
    intro j hj
    exact getByte_writeBytes_mid _ mem p j (by simpa using hj) (by simpa using hp)
  have h0 := hb 0 (by omega)
  have h1 := hb 1 (by omega)
  have h2 := hb 2 (by omega)
  have h3 := hb 3 (by omega)
  simp only [Nat.add_zero] at h0
  unfold getU32
  rw [h0, h1, h2, h3]
  simp only [List.getD_cons_zero, List.getD_cons_succ]
  omega

/-! ### WASI constants (`wasi.ts` top of file) -/

def CLOCKID_REALTIME : Int := 0

def CLOCKID_MONOTONIC : Int := 1

def ERRNO_SUCCESS : Nat := 0

def ERRNO_BADF : Nat := 8

/-! ### UTF-8 encoding (`TextEncoder.prototype.encode`) -/

/-- Bytes of the UTF-8 encoding of a string, as natural numbers. -/
def utf8Bytes (s : String) : List Nat :=
  (s.data.flatMap String.utf8EncodeChar).map UInt8.toNat

/-- Encoding of one argument as materialized by the bridge: the argument's
UTF-8 bytes followed by one null byte (the source encodes the template
string `arg + "\0"`). -/
def argEnc (s : String) : List Nat := utf8Bytes (s ++ "\x00")

/-! ### Argument marshalling syscalls -/

/-- `environ_sizes_get` as written in the source: it declares no parameters,
ignores the two pointers the guest passes, writes nothing to guest memory
and returns `ERRNO_SUCCESS`. -/
def environ_sizes_get (_environcp _environlenp : Nat) (mem : List Nat) :
    List Nat × Nat :=
  (mem, ERRNO_SUCCESS)

/-- `args_sizes_get(argcp, arglenp)`: stores the argument count at `argcp`
and the byte length of `encode(args.map(v => v + "\0").join(""))` at
`arglenp`, both as little-endian u32, and returns success. -/
def args_sizes_get (args : List String) (argcp arglenp : Nat) (mem : List Nat) :
    List Nat × Nat :=
  let argc := args.length
  let argsBytes := utf8Bytes (String.join (args.map fun v => v ++ "\x00"))
  let mem := setU32 mem argcp argc
  let mem := setU32 mem arglenp argsBytes.length
  (mem, ERRNO_SUCCESS)

/-- Loop body of `args_get`: for each argument, store the current buffer
pointer `argbp` at `argvp` (advancing `argvp` by 4), then copy the
null-terminated UTF-8 bytes at `argbp` (advancing `argbp` by their length). -/
def args_get_loop : List String → Nat → Nat → List Nat → List Nat
  | [], _, _, mem => mem
  | arg :: rest, argvp, argbp, mem =>
    let mem := setU32 mem argvp argbp
    let data := argEnc arg
    let mem := writeBytes mem argbp data
    args_get_loop rest (argvp + 4) (argbp + data.length) mem

/-- `args_get(argvp, argbp)`: materializes the pointer table and the argument
bytes, returning success. -/
def args_get (args : List String) (argvp argbp : Nat) (mem : List Nat) :
    List Nat × Nat :=
  (args_get_loop args argvp argbp mem, ERRNO_SUCCESS)

/-! ### Clock service -/

/-- JavaScript truncation of a (real-valued) number toward zero, the first
step of `ToInt32`. -/
def jsTrunc (q : ℚ) : Int := if 0 ≤ q then ⌊q⌋ else ⌈q⌉

/-- JavaScript `x | 0`: `ToInt32(x)`, i.e. truncate toward zero, wrap modulo
2^32 and reinterpret as a signed 32-bit value. -/
def jsToInt32 (q : ℚ) : Int :=
  let n := jsTrunc q % 4294967296
  if n < 2147483648 then n else n - 4294967296

/-- Fuel-driven floor of log₂ (so that the kernel can evaluate it; `n ≤ fuel`
makes it agree with the true logarithm). -/
def log2Fuel : Nat → Nat → Nat
  | 0, _ => 0
  | fuel + 1, n => if 2 ≤ n then log2Fuel fuel (n / 2) + 1 else 0

/-- Floor of log₂ on positive naturals. -/
def natLog2 (n : Nat) : Nat := log2Fuel n n

/-- IEEE-754 binary64 rounding (round to nearest, ties to even) of a natural
number: exact below 2^53, otherwise rounded at the 53-bit significand
granularity.  This is the value `BigInt(x)` sees when a JavaScript number
arithmetic result is the exact integer `n`. -/
def fl64Nat (n : Nat) : Nat :=
  if n < 9007199254740992 then n
  else
    let u := 2 ^ (natLog2 n - 52)
    let q := n / u
    let r := n % u
    if u < 2 * r ∨ (2 * r = u ∧ q % 2 = 1) then u * (q + 1) else u * q

/-- Nearest integer to a rational, ties to even. -/
def roundTiesEven (x : ℚ) : Int :=
  let n := ⌊x⌋
  let r := x - n
  if 1 / 2 < r then n + 1
  else if r < 1 / 2 then n
  else if n % 2 = 0 then n else n + 1

/-- Binary exponent of a positive rational: the `e` with 2^e ≤ q < 2^(e+1),
computed from the numerator's and denominator's log₂ with a one-step
correction. -/
def ratExp2 (q : ℚ) : Int :=
  let e : Int := (natLog2 q.num.natAbs : Int) - (natLog2 q.den : Int)
  if q < (2 : ℚ) ^ e then e - 1 else e

/-- IEEE-754 binary64 rounding of a positive rational: round to the nearest
multiple of 2^(e-52) where e is the value's binary exponent (clamped at the
subnormal threshold -1022), ties to even.  Overflow to infinity is not
modelled (irrelevant at the magnitudes the clock produces). -/
def fl64Pos (q : ℚ) : ℚ :=
  let e := max (ratExp2 q) (-1022)
  let u := (2 : ℚ) ^ (e - 52)
  u * (roundTiesEven (q / u) : ℚ)

/-- IEEE-754 binary64 rounding of a rational (rounding is symmetric about
zero). -/
def fl64Rat (q : ℚ) : ℚ :=
  if q < 0 then -fl64Pos (-q) else if q = 0 then 0 else fl64Pos q

/-- `clock_time_get(id, _, offset)`.  Wall-clock time comes from `Date.now()`
(an integer count `nowMs` of milliseconds, itself exactly representable);
`Date.now() * 1_000_000` is a float64 product, so the value stored is
`fl64Nat (nowMs * 1000000)` — rounded whenever the product reaches 2^53.
Monotonic time comes from `performance.now()` (a float64 number of
fractional milliseconds, modelled by the rational `perf`); `s = now | 0` is
exact, `now - s` is exact float64 subtraction (Sterbenz), and the product
`(now - s) * 1000` rounds, so `ms = ((now - s) * 1000) | 0` is modelled with
`fl64Rat` before the `| 0`.  The `BigInt` recombination and the mod-2^64
store are exact.  Any other clock id throws (`Except.error`). -/
def clock_time_get (nowMs : Nat) (perf : ℚ) (id : Int) (offset : Nat)
    (mem : List Nat) : Except String (List Nat × Nat) :=
  if id = CLOCKID_REALTIME then
    .ok (setU64 mem offset (fl64Nat (nowMs * 1000000)), ERRNO_SUCCESS)
  else if id = CLOCKID_MONOTONIC then
    let s : Int := jsToInt32 perf
    let ms : Int := jsToInt32 (fl64Rat ((perf - (s : ℚ)) * 1000))
    let v : Int := s * 1000000000 + ms * 1000000
    .ok (setU64 mem offset (v % 18446744073709551616).toNat, ERRNO_SUCCESS)
  else
    .error "Not implemented"

/-- `fd_prestat_get`: always `ERRNO_BADF`. -/
def fd_prestat_get : Nat := ERRNO_BADF

/-! ### Streaming I/O bridge

The input stream is modelled as the list of chunks successive BYOB
`reader.read(buf)` calls deliver (each at most the 8192-byte scratch buffer);
once the list is exhausted the reader reports `done` with an empty view. -/

/-- Loop body of `fd_read`: iterate over the iovec array.  Each iteration
reads the iovec's offset (and length, which the source only uses for the
no-op scratch-buffer swap), pulls the next chunk, copies the whole chunk at
the offset and accumulates its length; when the stream is exhausted the
read reports done with an empty view and the loop breaks. -/
def fd_read_loop : Nat → Nat → Nat → List (List Nat) → List Nat → Nat →
    List Nat × Nat
  | 0, _, _, _, mem, nread => (mem, nread)
  | n + 1, i, iovp, chunks, mem, nread =>
    let off := getU32 mem (iovp + i * 8)
    match chunks with
    | [] => (mem, nread)
    | c :: rest =>
      fd_read_loop n (i + 1) iovp rest (writeBytes mem off c) (nread + c.length)

/-- `fd_read(fd, iovp, iovlen, nreadp)`: only fd 0 with a configured stdin
succeeds; it runs the iovec loop and stores the accumulated count at
`nreadp`. -/
def fd_read (stdin : Option (List (List Nat))) (fd : Int)
    (iovp iovlen nreadp : Nat) (mem : List Nat) : List Nat × Nat :=
  if fd ≠ 0 then (mem, ERRNO_BADF)
  else
    match stdin with
    | none => (mem, ERRNO_BADF)
    | some chunks =>
      let r := fd_read_loop iovlen 0 iovp chunks mem 0
      (setU32 r.1 nreadp r.2, ERRNO_SUCCESS)

/-- `fd_close(fd)`: fd 0 cancels the input stream (when configured) and
returns success; every other fd returns `ERRNO_BADF`.  The first component
records whether a configured stdin was cancelled. -/
def fd_close (stdinConfigured : Bool) (fd : Int) : Bool × Nat :=
  if fd = 0 then (stdinConfigured, ERRNO_SUCCESS)
  else (false, ERRNO_BADF)

/-- Result of `fd_write`: final guest memory, the bytes written to the
stdout sink, the bytes written to the stderr sink, and the errno. -/
structure WriteResult where
  mem : List Nat
  out : List Nat
  err : List Nat
  errno : Nat
  deriving Repr, DecidableEq

/-- Loop body of `fd_write`: for each iovec read its offset and length,
take that byte range of guest memory as the chunk, write it to the sink
and accumulate `chunk.length`.  Returns (bytes written, nwritten). -/
def fd_write_loop : Nat → Nat → Nat → List Nat → List Nat × Nat
  | 0, _, _, _ => ([], 0)
  | n + 1, i, iovp, mem =>
    let off := getU32 mem (iovp + i * 8)
    let len := getU32 mem (iovp + i * 8 + 4)
    let chunk := readBytes mem off len
    let r := fd_write_loop n (i + 1) iovp mem
    (chunk ++ r.1, chunk.length + r.2)

/-- `fd_write(fd, iovp, iovlen, nwrittenp)`: fd 1 (resp. 2) with no
configured stdout (resp. stderr) is a silent no-op success; a configured
sink receives every iovec's byte range in order and the total is stored at
`nwrittenp`; any other fd returns `ERRNO_BADF`. -/
def fd_write (stdoutConfigured stderrConfigured : Bool) (fd : Int)
    (iovp iovlen nwrittenp : Nat) (mem : List Nat) : WriteResult :=
  if fd = 1 then
    if stdoutConfigured then
      let r := fd_write_loop iovlen 0 iovp mem
      ⟨setU32 mem nwrittenp r.2, r.1, [], ERRNO_SUCCESS⟩
    else ⟨mem, [], [], ERRNO_SUCCESS⟩
  else if fd = 2 then
    if stderrConfigured then
      let r := fd_write_loop iovlen 0 iovp mem
      ⟨setU32 mem nwrittenp r.2, [], r.1, ERRNO_SUCCESS⟩
    else ⟨mem, [], [], ERRNO_SUCCESS⟩
  else ⟨mem, [], [], ERRNO_BADF⟩

/-! ### Exit trap and the `start` driver -/

/-- Outcome of awaiting the guest entry point `_start`: it either throws the
`Exit` signal carrying a code, throws some other value (identified by a
message), or returns normally. -/
inductive GuestRun where
  | exits (code : Nat)
  | raises (msg : String)
  | returns
  deriving Repr, DecidableEq

/-- How `start` can reject: rethrowing a non-`Exit` value unchanged, or its
own internal `Error` (empty message for the export checks, "Unreachable"
for an entry point that returned normally). -/
inductive StartError where
  | rethrown (msg : String)
  | internal (msg : String)
  deriving Repr, DecidableEq

/-- `start(instance)`: validate the `memory` and `_start` exports, run the
entry point, catch the `Exit` trap and return its code; rethrow anything
else; raise "Unreachable" when the entry point returns normally. -/
def start (memoryExported startCallable : Bool) (run : GuestRun) :
    Except StartError Nat :=
  if ¬memoryExported then .error (.internal "")
  else if ¬startCallable then .error (.internal "")
  else
    match run with
    | .exits code => .ok code
    | .raises msg => .error (.rethrown msg)
    | .returns => .error (.internal "Unreachable")

/-! ### Memory-handle discipline of the suspending syscalls

To reason about *when* a syscall resolves the live memory handle relative to
its suspension points, we record the order of the relevant operations inside
`fd_read` / `fd_write` as an event trace: `resolve` is a call of the
`memory()` accessor (constructing a fresh `DataView` over the live buffer),
`access` is a read or write of guest memory through the current view, and
`suspend` is an `await` on the external stream. -/

inductive MemEvent where
  | resolve
  | access
  | suspend
  deriving Repr, DecidableEq

/-- Per-iteration events of the `fd_read` loop: read the iovec's offset and
length through the view (2 accesses), await `reader.read` (suspend), then —
if a chunk arrived — copy it into guest memory through the same view
(1 access).  When the stream is exhausted the iteration suspends, observes
`done` with an empty view and breaks. -/
def fdReadIterEvents : Nat → Nat → List MemEvent
  | 0, _ => []
  | _ + 1, 0 => [.access, .access, .suspend]
  | n + 1, c + 1 => [.access, .access, .suspend, .access] ++ fdReadIterEvents n c

/-- Event trace of one `fd_read(0, …)` call with `iovlen` iovecs against a
stream delivering `nchunks` chunks: the view is created once at entry
(`const view = new DataView(memory().buffer)`), the loop runs, and the
accumulated count is stored through the same view. -/
def fdReadEvents (iovlen nchunks : Nat) : List MemEvent :=
  .resolve :: fdReadIterEvents iovlen nchunks ++ [.access]

/-- Per-iteration events of the `fd_write` loop: read the iovec's offset and
length (2 accesses), construct the chunk view over guest memory (1 access),
await `writer.write` (suspend). -/
def fdWriteIterEvents : Nat → List MemEvent
  | 0 => []
  | n + 1 => [.access, .access, .access, .suspend] ++ fdWriteIterEvents n

/-- Event trace of one `fd_write` call with a configured sink and `iovlen`
iovecs: one view at entry, the loop, then the count store through the same
view. -/
def fdWriteEvents (iovlen : Nat) : List MemEvent :=
  .resolve :: fdWriteIterEvents iovlen ++ [.access]

/-- Scan of a trace checking that every `access` is backed by a `resolve`
performed after the last `suspend`; the boolean argument records whether
the current view is fresh (no suspension since it was resolved). -/
def freshFrom : Bool → List MemEvent → Bool
  | _, [] => true
  | _, .resolve :: es => freshFrom true es
  | _, .suspend :: es => freshFrom false es
  | f, .access :: es => f && freshFrom f es

/-- A trace re-resolves the live memory handle at the time of every access:
no access goes through a view captured before an intervening suspension. -/
def freshAccesses (es : List MemEvent) : Bool := freshFrom false es

/-! ### Instantiation driver (`index.ts` `newPandoc`, page `render`) -/

/-- A compiled module, identified by which compilation produced it. -/
structure Mod where
  id : Nat
  deriving Repr, DecidableEq

/-- A guest instance: which instantiation produced it and which compiled
module it runs. -/
structure Inst where
  id : Nat
  modId : Nat
  deriving Repr, DecidableEq

/-- Process-wide state of the page: how many times
`WebAssembly.compileStreaming` has run, the memoized driver
(`let pandoc: Promise<Pandoc> | undefined`), and how many instances have
been created. -/
structure World where
  compileCount : Nat
  cache : Option Mod
  instCount : Nat
  deriving Repr, DecidableEq

def World.init : World := ⟨0, none, 0⟩

/-- `WebAssembly.compileStreaming`: one more compilation. -/
def compileStreaming (w : World) : Mod × World :=
  (⟨w.compileCount⟩, { w with compileCount := w.compileCount + 1 })

/-- `newPandoc`: compiles the fetched bytes (once, at driver creation) and
returns a driver closed over the compiled module. -/
def newPandoc (w : World) : Mod × World := compileStreaming w

/-- One invocation through the driver: `WebAssembly.instantiate(mod, …)`
creates a fresh instance of the shared module with its own imports table
and memory. -/
def invokePandoc (m : Mod) (w : World) : Inst × World :=
  (⟨w.instCount, m.id⟩, { w with instCount := w.instCount + 1 })

/-- The page's `render` helper: `pandoc ??= newPandoc({})` — reuse the
memoized (pending or resolved) driver, creating it on first use — then run
one invocation through it. -/
def render (w : World) : Inst × World :=
  match w.cache with
  | some m => invokePandoc m w
  | none =>
    let p := newPandoc w
    invokePandoc p.1 { p.2 with cache := some p.1 }

/-- `n` successive `render` calls, collecting the instances they create. -/
def renders : Nat → World → List Inst × World
  | 0, w => ([], w)
  | n + 1, w =>
    let r := render w
    let rs := renders n r.2
    (r.1 :: rs.1, rs.2)

/-! ### Supporting lemmas -/

theorem getU64_setU64 (mem : List Nat) (p v : Nat)
    (hp : p + 8 ≤ mem.length) (hv : v < 18446744073709551616) :
    getU64 (setU64 mem p v) p = v := by
  have hb : ∀ j, j < 8 →
      getByte (setU64 mem p v) (p + j) =
        [v % 256, v / 256 % 256, v / 65536 % 256, v / 16777216 % 256,
          v / 4294967296 % 256, v / 1099511627776 % 256,
          v / 281474976710656 % 256, v / 72057594037927936 % 256].getD j 0 := by
    intro j hj
    exact getByte_writeBytes_mid _ mem p j (by simpa using hj) (by simpa using hp)
  have h0 := hb 0 (by omega)
  have h1 := hb 1 (by omega)
  have h2 := hb 2 (by omega)
  have h3 := hb 3 (by omega)
  have h4 := hb 4 (by omega)
  have h5 := hb 5 (by omega)
  have h6 := hb 6 (by omega)
  have h7 := hb 7 (by omega)
  simp only [Nat.add_zero] at h0
  unfold getU64
  rw [h0, h1, h2, h3, h4, h5, h6, h7]
  simp only [List.getD_cons_zero, List.getD_cons_succ]
  omega

theorem jsToInt32_of_small (q : ℚ) (h0 : 0 ≤ q) (h1 : q < 2147483648) :
    jsToInt32 q = ⌊q⌋ := by
  have hfl0 : (0 : Int) ≤ ⌊q⌋ := Int.floor_nonneg.mpr h0
  have hfl1 : ⌊q⌋ < 2147483648 := by
    rw [Int.floor_lt]
    exact_mod_cast h1
  simp only [jsToInt32, jsTrunc, if_pos h0]
  rw [Int.emod_eq_of_lt hfl0 (by omega), if_pos hfl1]

theorem log2Fuel_bounds :
    ∀ (fuel n : Nat), n ≠ 0 → n ≤ fuel →
      2 ^ log2Fuel fuel n ≤ n ∧ n < 2 ^ (log2Fuel fuel n + 1) := by
  intro fuel
  induction fuel with
  | zero => intro n h0 h1; omega
  | succ k ih =>
    intro n h0 h1
    by_cases h2 : 2 ≤ n
    · obtain ⟨hl, hr⟩ := ih (n / 2) (by omega) (by omega)
      rw [log2Fuel, if_pos h2]
      have e1 : (2 : ℕ) ^ (log2Fuel k (n / 2) + 1)
          = 2 * 2 ^ log2Fuel k (n / 2) := by rw [Nat.pow_succ]; ring
      have e2 : (2 : ℕ) ^ (log2Fuel k (n / 2) + 1 + 1)
          = 2 * 2 ^ (log2Fuel k (n / 2) + 1) := by rw [Nat.pow_succ]; ring
      omega
    · rw [log2Fuel, if_neg h2]
      simp only [pow_zero, pow_one]
      omega

theorem natLog2_bounds (n : Nat) (h : n ≠ 0) :
    2 ^ natLog2 n ≤ n ∧ n < 2 ^ (natLog2 n + 1) :=
  log2Fuel_bounds n n h (le_refl n)

theorem roundTiesEven_nonneg (x : ℚ) (h : 0 ≤ x) : 0 ≤ roundTiesEven x := by
  have hf : (0 : ℤ) ≤ ⌊x⌋ := Int.floor_nonneg.mpr h
  simp only [roundTiesEven]
  split_ifs <;> omega

theorem roundTiesEven_cast_le (x : ℚ) : (roundTiesEven x : ℚ) ≤ x + 1 := by
  have hf : (⌊x⌋ : ℚ) ≤ x := Int.floor_le x
  simp only [roundTiesEven]
  split_ifs <;> push_cast <;> linarith

theorem ratExp2_le (q : ℚ) (hq : 0 < q) : (2 : ℚ) ^ ratExp2 q ≤ q := by
  unfold ratExp2
  by_cases h : q < (2 : ℚ) ^ ((natLog2 q.num.natAbs : Int) - (natLog2 q.den : Int))
  · rw [if_pos h]
    have hnum0 : 0 < q.num := Rat.num_pos.mpr hq
    have hnumA : q.num.natAbs ≠ 0 := by omega
    obtain ⟨ha, _⟩ := natLog2_bounds q.num.natAbs hnumA
    obtain ⟨_, hb⟩ := natLog2_bounds q.den (Rat.den_ne_zero q)
    have hnumQ : (2 : ℚ) ^ (natLog2 q.num.natAbs : Int) ≤ (q.num : ℚ) := by
      rw [zpow_natCast]
      have h1 : ((2 : ℤ)) ^ natLog2 q.num.natAbs ≤ q.num := by
        have := Int.natAbs_of_nonneg hnum0.le
        exact_mod_cast this ▸ (by exact_mod_cast ha :
          ((2 ^ natLog2 q.num.natAbs : ℕ) : ℤ) ≤ (q.num.natAbs : ℤ))
      exact_mod_cast h1
    have hdenQ : (q.den : ℚ) < (2 : ℚ) ^ ((natLog2 q.den : Int) + 1) := by
      rw [show ((natLog2 q.den : Int) + 1) = ((natLog2 q.den + 1 : ℕ) : Int) by
        push_cast; ring, zpow_natCast]
      exact_mod_cast hb
    have hden_pos : (0 : ℚ) < (q.den : ℚ) := by exact_mod_cast q.den_pos
    have hpow_pos : (0 : ℚ) < (2 : ℚ) ^ ((natLog2 q.den : Int) + 1) :=
      zpow_pos (by norm_num) _
    have hnum_posQ : (0 : ℚ) < (q.num : ℚ) := by exact_mod_cast hnum0
    have hstep : (2 : ℚ) ^ ((natLog2 q.num.natAbs : Int) - (natLog2 q.den : Int) - 1)
        < q := by
      calc (2 : ℚ) ^ ((natLog2 q.num.natAbs : Int) - (natLog2 q.den : Int) - 1)
          = (2 : ℚ) ^ (natLog2 q.num.natAbs : Int)
            / (2 : ℚ) ^ ((natLog2 q.den : Int) + 1) := by
            rw [← zpow_sub₀ (two_ne_zero)]
            congr 1
            ring
        _ ≤ (q.num : ℚ) / (2 : ℚ) ^ ((natLog2 q.den : Int) + 1) :=
            (div_le_div_iff_of_pos_right hpow_pos).mpr hnumQ
        _ < (q.num : ℚ) / (q.den : ℚ) :=
            div_lt_div_of_pos_left hnum_posQ hden_pos hdenQ
        _ = q := Rat.num_div_den q
    exact hstep.le
  · rw [if_neg h]
    exact not_lt.mp h

theorem fl64Pos_nonneg (q : ℚ) (hq : 0 < q) : 0 ≤ fl64Pos q := by
  unfold fl64Pos
  have hu : (0 : ℚ) < (2 : ℚ) ^ (max (ratExp2 q) (-1022) - 52) :=
    zpow_pos (by norm_num) _
  have hr : (0 : ℤ) ≤ roundTiesEven (q / (2 : ℚ) ^ (max (ratExp2 q) (-1022) - 52)) :=
    roundTiesEven_nonneg _ (div_nonneg hq.le hu.le)
  exact mul_nonneg hu.le (by exact_mod_cast hr)

theorem fl64Pos_le (q : ℚ) (hq : 0 < q) : fl64Pos q ≤ 2 * q + 1 := by
  unfold fl64Pos
  have hu : (0 : ℚ) < (2 : ℚ) ^ (max (ratExp2 q) (-1022) - 52) :=
    zpow_pos (by norm_num) _
  have hu_le : (2 : ℚ) ^ (max (ratExp2 q) (-1022) - 52) ≤ q + 1 := by
    rcases le_or_lt (-1022) (ratExp2 q) with hcase | hcase
    · rw [max_eq_left hcase]
      calc (2 : ℚ) ^ (ratExp2 q - 52) ≤ (2 : ℚ) ^ ratExp2 q :=
            zpow_le_zpow_right₀ one_le_two (by omega)
        _ ≤ q := ratExp2_le q hq
        _ ≤ q + 1 := by linarith
    · rw [max_eq_right hcase.le]
      calc (2 : ℚ) ^ ((-1022 : Int) - 52) ≤ (2 : ℚ) ^ (0 : Int) :=
            zpow_le_zpow_right₀ one_le_two (by omega)
        _ = 1 := zpow_zero 2
        _ ≤ q + 1 := by linarith
  have hround := roundTiesEven_cast_le (q / (2 : ℚ) ^ (max (ratExp2 q) (-1022) - 52))
  calc (2 : ℚ) ^ (max (ratExp2 q) (-1022) - 52)
        * (roundTiesEven (q / (2 : ℚ) ^ (max (ratExp2 q) (-1022) - 52)) : ℚ)
      ≤ (2 : ℚ) ^ (max (ratExp2 q) (-1022) - 52)
        * (q / (2 : ℚ) ^ (max (ratExp2 q) (-1022) - 52) + 1) :=
        mul_le_mul_of_nonneg_left hround hu.le
    _ = q + (2 : ℚ) ^ (max (ratExp2 q) (-1022) - 52) := by
        rw [mul_add, mul_one, mul_div_cancel₀ _ (ne_of_gt hu)]
    _ ≤ q + (q + 1) := by linarith
    _ = 2 * q + 1 := by ring

theorem fl64Rat_nonneg (x : ℚ) (h : 0 ≤ x) : 0 ≤ fl64Rat x := by
  unfold fl64Rat
  rw [if_neg (not_lt.mpr h)]
  by_cases h0 : x = 0
  · rw [if_pos h0]
  · rw [if_neg h0]
    exact fl64Pos_nonneg x (lt_of_le_of_ne h (Ne.symm h0))

theorem fl64Rat_le (x : ℚ) (h : 0 ≤ x) : fl64Rat x ≤ 2 * x + 1 := by
  unfold fl64Rat
  rw [if_neg (not_lt.mpr h)]
  by_cases h0 : x = 0
  · rw [if_pos h0, h0]
    norm_num
  · rw [if_neg h0]
    exact fl64Pos_le x (lt_of_le_of_ne h (Ne.symm h0))

theorem fd_write_loop_snd_eq_length :
    ∀ (n i iovp : Nat) (mem : List Nat),
      (fd_write_loop n i iovp mem).2 = (fd_write_loop n i iovp mem).1.length := by
  intro n
  induction n with
  | zero => intro i iovp mem; rfl
  | succ k ih =>
    intro i iovp mem
    simp [fd_write_loop, ih]

theorem fdReadIterEvents_no_resolve :
    ∀ (n c : Nat), MemEvent.resolve ∉ fdReadIterEvents n c := by
  intro n
  induction n with
  | zero => intro c; simp [fdReadIterEvents]
  | succ k ih =>
    intro c
    cases c with
    | zero => simp [fdReadIterEvents]
    | succ c' => simp [fdReadIterEvents, ih c']

theorem fdWriteIterEvents_no_resolve :
    ∀ (n : Nat), MemEvent.resolve ∉ fdWriteIterEvents n := by
  intro n
  induction n with
  | zero => simp [fdWriteIterEvents]
  | succ k ih => simp [fdWriteIterEvents, ih]

theorem renders_cached (n : Nat) :
    ∀ (w : World) (m : Mod), w.cache = some m →
      (renders n w).2.compileCount = w.compileCount ∧
      (renders n w).1.map Inst.id = List.range' w.instCount n ∧
      ∀ i ∈ (renders n w).1, i.modId = m.id := by
  induction n with
  | zero => intro w m _; simp [renders]
  | succ k ih =>
    intro w m h
    have hrender : render w = (⟨w.instCount, m.id⟩, { w with instCount := w.instCount + 1 }) := by
      simp [render, h, invokePandoc]
    have hcache : ({ w with instCount := w.instCount + 1 } : World).cache = some m := h
    obtain ⟨h1, h2, h3⟩ := ih { w with instCount := w.instCount + 1 } m hcache
    refine ⟨?_, ?_, ?_⟩
    · simpa [renders, hrender] using h1
    · simp only [renders, hrender, List.map_cons, List.range'_succ]
      exact congrArg (w.instCount :: ·) h2
    · intro i hi
      simp only [renders, hrender, List.mem_cons] at hi
      rcases hi with hi | hi
      · simp [hi]
      · exact h3 i hi

/-- Concatenation of the per-argument encodings `args_get` materializes. -/
def argsBytes (args : List String) : List Nat := (args.map argEnc).flatten

theorem argsBytes_cons (a : String) (l : List String) :
    argsBytes (a :: l) = argEnc a ++ argsBytes l := by
  simp [argsBytes]

theorem utf8Bytes_append (a b : String) :
    utf8Bytes (a ++ b) = utf8Bytes a ++ utf8Bytes b := by
  simp [utf8Bytes]

theorem utf8Bytes_foldl :
    ∀ (l : List String) (s : String),
      utf8Bytes (l.foldl (fun r t => r ++ t) s)
        = utf8Bytes s ++ (l.map utf8Bytes).flatten := by
  intro l
  induction l with
  | nil => intro s; simp
  | cons a l ih => intro s; simp [ih, utf8Bytes_append]

theorem utf8Bytes_join (l : List String) :
    utf8Bytes (String.join l) = (l.map utf8Bytes).flatten := by
  have h := utf8Bytes_foldl l ""
  have h0 : utf8Bytes "" = [] := rfl
  rw [h0, List.nil_append] at h
  exact h

theorem utf8Bytes_join_null (args : List String) :
    utf8Bytes (String.join (args.map fun v => v ++ "\x00")) = argsBytes args := by
  rw [utf8Bytes_join]
  simp [argsBytes, List.map_map]
  rfl

theorem getD_append_left (l l' : List Nat) (j : Nat) (h : j < l.length) :
    (l ++ l').getD j 0 = l.getD j 0 := by
  simp [List.getD_eq_getElem?_getD, List.getElem?_append_left h]

theorem getD_append_right (l l' : List Nat) (j : Nat) (h : l.length ≤ j) :
    (l ++ l').getD j 0 = l'.getD (j - l.length) 0 := by
  simp [List.getD_eq_getElem?_getD, List.getElem?_append_right h]

theorem args_get_loop_spec :
    ∀ (args : List String) (argvp argbp : Nat) (mem : List Nat),
      argvp + 4 * args.length ≤ argbp →
      argbp + (argsBytes args).length ≤ mem.length →
      argbp + (argsBytes args).length < 4294967296 →
      (args_get_loop args argvp argbp mem).length = mem.length ∧
      (∀ i, (i < argvp ∨ argvp + 4 * args.length ≤ i) →
            (i < argbp ∨ argbp + (argsBytes args).length ≤ i) →
            getByte (args_get_loop args argvp argbp mem) i = getByte mem i) ∧
      (∀ j, j < (argsBytes args).length →
            getByte (args_get_loop args argvp argbp mem) (argbp + j)
              = (argsBytes args).getD j 0) ∧
      (∀ i, i < args.length →
            getU32 (args_get_loop args argvp argbp mem) (argvp + 4 * i)
              = argbp + (argsBytes (args.take i)).length) := by
  intro args
  induction args with
  | nil =>
    intro argvp argbp mem _ _ _
    refine ⟨rfl, fun i _ _ => rfl, fun j hj => ?_, fun i hi => ?_⟩
    · simp [argsBytes] at hj
    · simp at hi
  | cons a rest ih =>
    intro argvp argbp mem h1 h2 h3
    simp only [List.length_cons, argsBytes_cons, List.length_append] at h1 h2 h3 ⊢
    have hunfold : args_get_loop (a :: rest) argvp argbp mem
        = args_get_loop rest (argvp + 4) (argbp + (argEnc a).length)
            (writeBytes (setU32 mem argvp argbp) argbp (argEnc a)) := rfl
    have hm1 : (setU32 mem argvp argbp).length = mem.length := length_setU32 mem argvp argbp
    have hm2 : (writeBytes (setU32 mem argvp argbp) argbp (argEnc a)).length
        = mem.length := by rw [length_writeBytes]; exact hm1
    obtain ⟨ihlen, ihpres, ihbuf, ihptr⟩ :=
      ih (argvp + 4) (argbp + (argEnc a).length)
        (writeBytes (setU32 mem argvp argbp) argbp (argEnc a))
        (by omega) (by omega) (by omega)
    have hpres : ∀ i, (i < argvp ∨ argvp + 4 * (rest.length + 1) ≤ i) →
        (i < argbp ∨ argbp + ((argEnc a).length + (argsBytes rest).length) ≤ i) →
        getByte (args_get_loop (a :: rest) argvp argbp mem) i = getByte mem i := by
      intro i hiv hib
      have e1 : getByte (setU32 mem argvp argbp) i = getByte mem i := by
        rcases hiv with hv | hv
        · exact getByte_setU32_lo mem argvp argbp i hv
        · exact getByte_setU32_hi mem argvp argbp i (by omega)
      have e2 : getByte (writeBytes (setU32 mem argvp argbp) argbp (argEnc a)) i
          = getByte mem i := by
        rcases hib with hb | hb
        · rw [getByte_writeBytes_lo _ _ _ _ hb]; exact e1
        · rw [getByte_writeBytes_hi _ _ _ _ (by omega)]; exact e1
      rw [hunfold, ihpres i (by omega) (by omega), e2]
    refine ⟨?_, hpres, ?_, ?_⟩
    · rw [hunfold, ihlen, hm2]
    · intro j hj
      by_cases hjd : j < (argEnc a).length
      · have e0 : getByte (args_get_loop (a :: rest) argvp argbp mem) (argbp + j)
            = getByte (writeBytes (setU32 mem argvp argbp) argbp (argEnc a))
                (argbp + j) := by
          rw [hunfold]; exact ihpres (argbp + j) (by omega) (by omega)
        have e1 : getByte (writeBytes (setU32 mem argvp argbp) argbp (argEnc a))
            (argbp + j) = (argEnc a).getD j 0 :=
          getByte_writeBytes_mid (argEnc a) (setU32 mem argvp argbp) argbp j hjd
            (by omega)
        rw [e0, e1, getD_append_left _ _ _ hjd]
      · push_neg at hjd
        have e := ihbuf (j - (argEnc a).length) (by omega)
        have harg : argbp + (argEnc a).length + (j - (argEnc a).length)
            = argbp + j := by omega
        rw [harg] at e
        rw [hunfold, e, getD_append_right _ _ _ hjd]
    · intro i hi
      cases i with
      | zero =>
        have hcongr : getU32 (args_get_loop (a :: rest) argvp argbp mem) argvp
            = getU32 (setU32 mem argvp argbp) argvp := by
          apply getU32_congr
          intro k hk
          have e0 : getByte (args_get_loop (a :: rest) argvp argbp mem) (argvp + k)
              = getByte (writeBytes (setU32 mem argvp argbp) argbp (argEnc a))
                  (argvp + k) := by
            rw [hunfold]; exact ihpres (argvp + k) (by omega) (by omega)
          rw [e0, getByte_writeBytes_lo _ _ _ _ (by omega)]
        rw [Nat.mul_zero, Nat.add_zero] at *
        rw [hcongr, getU32_setU32 mem argvp argbp (by omega) (by omega)]
        simp [argsBytes]
      | succ i' =>
        have e := ihptr i' (by omega)
        have harg : argvp + 4 * (i' + 1) = argvp + 4 + 4 * i' := by ring
        rw [hunfold, harg, e, List.take_succ_cons, argsBytes_cons,
          List.length_append]
        omega

/-! ### Claim theorems -/

/-- Claim C1 (code bug evaluated): `fd_read` is asked to fill a single iovec
of length 1 (offset 16, stored at `iovp = 0`), and the stream delivers one
2-byte chunk `[5, 6]`.  The bridge copies both bytes into guest memory —
overrunning the iovec's 1-byte region at offset 17 — and reports `nread = 2`
with success, instead of copying at most the iovec's length of bytes.  (The
source reads the iovec length only to guard a no-op reallocation of its
scratch buffer to the same size; the BYOB read is never limited to the
iovec's length.) -/
theorem fd_read_overcopies_past_iovec_length :
    getU32 (setU32 (setU32 (List.replicate 32 0) 0 16) 4 1) 4 = 1 ∧
    getByte (setU32 (setU32 (List.replicate 32 0) 0 16) 4 1) 17 = 0 ∧
    (fd_read (some [[5, 6]]) 0 0 1 24 (setU32 (setU32 (List.replicate 32 0) 0 16) 4 1)).2
      = ERRNO_SUCCESS ∧
    getByte (fd_read (some [[5, 6]]) 0 0 1 24
      (setU32 (setU32 (List.replicate 32 0) 0 16) 4 1)).1 16 = 5 ∧
    getByte (fd_read (some [[5, 6]]) 0 0 1 24
      (setU32 (setU32 (List.replicate 32 0) 0 16) 4 1)).1 17 = 6 ∧
    getU32 (fd_read (some [[5, 6]]) 0 0 1 24
      (setU32 (setU32 (List.replicate 32 0) 0 16) 4 1)).1 24 = 2 := by
  decide

/-- Claim C2: for every list of argument strings, under a sane disjoint
layout of the pointer table at `argvp`, the byte buffer at `argbp` and the
two size cells, `args_get` materializes exactly the concatenation of each
argument's UTF-8 encoding followed by one null byte; its little-endian
pointer table has one entry per argument equal to the buffer base plus the
cumulative encoded lengths of the preceding arguments; and the count and
total byte length `args_sizes_get` reports agree exactly with that
materialization. -/
theorem args_round_trip (args : List String) (argcp arglenp argvp argbp : Nat)
    (mem : List Nat)
    (h1 : argvp + 4 * args.length ≤ argbp)
    (h2 : argbp + (argsBytes args).length ≤ mem.length)
    (h3 : argbp + (argsBytes args).length < 4294967296)
    (h4 : args.length < 4294967296)
    (h5 : argcp + 4 ≤ arglenp)
    (h6 : arglenp + 4 ≤ mem.length) :
    (args_sizes_get args argcp arglenp mem).2 = ERRNO_SUCCESS ∧
    getU32 (args_sizes_get args argcp arglenp mem).1 argcp = args.length ∧
    getU32 (args_sizes_get args argcp arglenp mem).1 arglenp
      = (argsBytes args).length ∧
    (args_get args argvp argbp mem).2 = ERRNO_SUCCESS ∧
    readBytes (args_get args argvp argbp mem).1 argbp (argsBytes args).length
      = argsBytes args ∧
    (∀ i, i < args.length →
      getU32 (args_get args argvp argbp mem).1 (argvp + 4 * i)
        = argbp + (argsBytes (args.take i)).length) := by
  obtain ⟨_, _, hbuf, hptr⟩ := args_get_loop_spec args argvp argbp mem h1 h2 h3
  have hsizes : (args_sizes_get args argcp arglenp mem).1
      = setU32 (setU32 mem argcp args.length) arglenp (argsBytes args).length := by
    simp only [args_sizes_get, utf8Bytes_join_null]
  refine ⟨rfl, ?_, ?_, rfl, ?_, hptr⟩
  · rw [hsizes]
    have hcongr : getU32 (setU32 (setU32 mem argcp args.length) arglenp
        (argsBytes args).length) argcp = getU32 (setU32 mem argcp args.length) argcp := by
      apply getU32_congr
      intro k hk
      exact getByte_setU32_lo _ arglenp _ (argcp + k) (by omega)
    rw [hcongr]
    exact getU32_setU32 mem argcp args.length (by omega) h4
  · rw [hsizes]
    exact getU32_setU32 (setU32 mem argcp args.length) arglenp
      (argsBytes args).length (by rw [length_setU32]; omega) (by omega)
  · exact readBytes_getD (argsBytes args) _ argbp hbuf

/-- Claim C2 witness: arguments `["a", "é"]` (the second multi-byte UTF-8),
pointer table at 0, buffer at 8, size cells at 16 and 20 in a 24-byte
memory. -/
theorem args_round_trip_witness :
    (0 + 4 * (["a", "é"] : List String).length ≤ 8 ∧
      8 + (argsBytes ["a", "é"]).length ≤ (List.replicate 24 0).length ∧
      8 + (argsBytes ["a", "é"]).length < 4294967296 ∧
      (["a", "é"] : List String).length < 4294967296 ∧
      16 + 4 ≤ 20 ∧ 20 + 4 ≤ (List.replicate 24 0).length) ∧
    ((args_sizes_get ["a", "é"] 16 20 (List.replicate 24 0)).2 = ERRNO_SUCCESS ∧
      getU32 (args_sizes_get ["a", "é"] 16 20 (List.replicate 24 0)).1 16
        = (["a", "é"] : List String).length ∧
      getU32 (args_sizes_get ["a", "é"] 16 20 (List.replicate 24 0)).1 20
        = (argsBytes ["a", "é"]).length ∧
      (args_get ["a", "é"] 0 8 (List.replicate 24 0)).2 = ERRNO_SUCCESS ∧
      readBytes (args_get ["a", "é"] 0 8 (List.replicate 24 0)).1 8
        (argsBytes ["a", "é"]).length = argsBytes ["a", "é"] ∧
      (∀ i, i < (["a", "é"] : List String).length →
        getU32 (args_get ["a", "é"] 0 8 (List.replicate 24 0)).1 (0 + 4 * i)
          = 8 + (argsBytes ((["a", "é"] : List String).take i)).length)) :=
  ⟨⟨by decide, by decide, by decide, by decide, by decide, by decide⟩,
   args_round_trip ["a", "é"] 16 20 0 8 (List.replicate 24 0)
     (by decide) (by decide) (by decide) (by decide) (by decide) (by decide)⟩

/-- Claim C3: `start` resolves with a status code exactly when the entry
point raises the `Exit` signal (returning the carried code, for zero and
non-zero alike); a normal return fails with the "Unreachable" internal
error; any other raised value is rethrown unchanged. -/
theorem start_exit_semantics :
    (∀ (run : GuestRun) (code : Nat),
      start true true run = .ok code ↔ run = .exits code) ∧
    (∀ code : Nat, start true true (.exits code) = .ok code) ∧
    start true true .returns = .error (.internal "Unreachable") ∧
    (∀ msg : String, start true true (.raises msg) = .error (.rethrown msg)) := by
  refine ⟨?_, fun code => rfl, rfl, fun msg => rfl⟩
  intro run code
  cases run <;> simp [start]

/-- Claim C4 (counterexample): within a single `fd_read` (and `fd_write`)
call, guest memory is accessed through the `DataView` captured at entry even
after the `await` suspension points, so it is not the case that every access
re-resolves the live memory handle at the time of the access. -/
theorem stale_view_after_suspension :
    freshAccesses (fdReadEvents 1 1) = false ∧
    freshAccesses (fdWriteEvents 1) = false := by
  decide

/-- Claim C4 (amended): each `fd_read` / `fd_write` invocation resolves the
live memory handle exactly once, at its entry, before any suspension; no
view is carried over from an earlier syscall, but all accesses of the call —
including those after internal suspension points — go through that entry
view. -/
theorem memory_view_resolved_per_syscall (iovlen nchunks : Nat) :
    (fdReadEvents iovlen nchunks).head? = some .resolve ∧
    MemEvent.resolve ∉ (fdReadEvents iovlen nchunks).tail ∧
    (fdWriteEvents iovlen).head? = some .resolve ∧
    MemEvent.resolve ∉ (fdWriteEvents iovlen).tail := by
  refine ⟨rfl, ?_, rfl, ?_⟩
  · simp [fdReadEvents, fdReadIterEvents_no_resolve iovlen nchunks]
  · simp [fdWriteEvents, fdWriteIterEvents_no_resolve iovlen]

/-- Claim C5: `fd_read` on any fd other than 0 (or on fd 0 with no input
stream configured), `fd_write` on any fd other than 1 or 2, and `fd_close`
on any fd other than 0 all return the "bad descriptor" errno (8) as a value,
without throwing; in particular every fd outside {0, 1, 2} gets "bad
descriptor" from all three. -/
theorem bad_descriptor_paths (fd : Int) (stdin : Option (List (List Nat)))
    (stdoutCfg stderrCfg stdinCfg : Bool)
    (iovp iovlen nreadp nwrittenp : Nat) (mem : List Nat) :
    (fd ≠ 0 → fd_read stdin fd iovp iovlen nreadp mem = (mem, ERRNO_BADF)) ∧
    fd_read none 0 iovp iovlen nreadp mem = (mem, ERRNO_BADF) ∧
    (fd ≠ 1 → fd ≠ 2 →
      fd_write stdoutCfg stderrCfg fd iovp iovlen nwrittenp mem
        = ⟨mem, [], [], ERRNO_BADF⟩) ∧
    (fd ≠ 0 → fd_close stdinCfg fd = (false, ERRNO_BADF)) := by
  refine ⟨fun h => ?_, ?_, fun h1 h2 => ?_, fun h => ?_⟩
  · simp [fd_read, h]
  · simp [fd_read]
  · simp [fd_write, h1, h2]
  · simp [fd_close, h]

/-- Claim C5 witness at the concrete descriptor 7. -/
theorem bad_descriptor_paths_witness :
    ((7 : Int) ≠ 0 ∧ (7 : Int) ≠ 1 ∧ (7 : Int) ≠ 2) ∧
    fd_read (some [[1]]) 7 0 1 8 [3, 3] = ([3, 3], ERRNO_BADF) ∧
    fd_write true true 7 0 1 8 [3, 3] = ⟨[3, 3], [], [], ERRNO_BADF⟩ ∧
    fd_close true 7 = (false, ERRNO_BADF) :=
  ⟨by decide,
   (bad_descriptor_paths 7 (some [[1]]) true true true 0 1 8 8 [3, 3]).1 (by decide),
   (bad_descriptor_paths 7 (some [[1]]) true true true 0 1 8 8 [3, 3]).2.2.1
     (by decide) (by decide),
   (bad_descriptor_paths 7 (some [[1]]) true true true 0 1 8 8 [3, 3]).2.2.2
     (by decide)⟩

/-- Claim C6: `fd_write` on fd 1 with no output stream configured, and on
fd 2 with no error stream configured, returns success immediately: the
bytes are discarded (nothing reaches any sink), guest memory is untouched,
and no error is surfaced. -/
theorem fd_write_no_sink_noop (stdoutCfg stderrCfg : Bool)
    (iovp iovlen nwrittenp : Nat) (mem : List Nat) :
    fd_write false stderrCfg 1 iovp iovlen nwrittenp mem
      = ⟨mem, [], [], ERRNO_SUCCESS⟩ ∧
    fd_write stdoutCfg false 2 iovp iovlen nwrittenp mem
      = ⟨mem, [], [], ERRNO_SUCCESS⟩ := by
  constructor <;> simp [fd_write]

/-- Claim C7 (counterexample): `environ_sizes_get` does not write zeros into
the locations its pointer arguments designate — on a memory whose count and
size cells hold 7 and 9 it returns success leaving both cells unchanged
(7 and 9, not 0). -/
theorem environ_sizes_get_writes_nothing :
    (environ_sizes_get 0 4 [7, 0, 0, 0, 9, 0, 0, 0]).2 = ERRNO_SUCCESS ∧
    getU32 (environ_sizes_get 0 4 [7, 0, 0, 0, 9, 0, 0, 0]).1 0 = 7 ∧
    getU32 (environ_sizes_get 0 4 [7, 0, 0, 0, 9, 0, 0, 0]).1 4 = 9 ∧
    getU32 (environ_sizes_get 0 4 [7, 0, 0, 0, 9, 0, 0, 0]).1 0 ≠ 0 := by
  decide

/-- Claim C7 (amended): `environ_sizes_get` returns success while leaving
guest memory entirely unchanged — it ignores the guest-passed pointers and
writes neither a count nor a buffer size (the guest observes whatever bytes
were already at those locations). -/
theorem environ_sizes_get_success_noop (environcp environlenp : Nat)
    (mem : List Nat) :
    environ_sizes_get environcp environlenp mem = (mem, ERRNO_SUCCESS) := rfl

/-- Claim C8 (counterexample): at the realistic odd millisecond timestamp
1760227200123 the float64 product `Date.now() * 1_000_000` is rounded (the
exact product 1760227200123000000 lies in the binade with ulp 256 and is
64·odd past a multiple of 256), so the realtime branch stores
1760227200123000064 — neither the exact nanosecond value nor a multiple of
10^6 (its remainder mod 10^6 is 64). -/
theorem realtime_write_rounded_not_multiple :
    clock_time_get 1760227200123 0 0 0 (List.replicate 8 0)
      = .ok (setU64 (List.replicate 8 0) 0 1760227200123000064, ERRNO_SUCCESS) ∧
    getU64 (setU64 (List.replicate 8 0) 0 1760227200123000064) 0
      = 1760227200123000064 ∧
    ¬ getU64 (setU64 (List.replicate 8 0) 0 1760227200123000064) 0
        = 1760227200123 * 1000000 ∧
    getU64 (setU64 (List.replicate 8 0) 0 1760227200123000064) 0 % 1000000
      = 64 :=
  ⟨rfl, by decide, by decide, by decide⟩

/-- Claim C8 (amended): for clock id 0, `clock_time_get` writes the float64
product of the millisecond wall time with 10^6 — `fl64Nat (nowMs * 1000000)`,
round-to-nearest-even — as little-endian u64 and returns success; that value
equals the exact `nowMs * 10^6` (and is a multiple of 10^6) whenever the
product is below 2^53.  For clock id 1 it writes `s * 10^9 + m * 10^6` where
`s` is the whole part of the timer reading and `m` the int32 truncation of
the float64-rounded product of the fractional part with 1000.  Every other
clock id throws instead of returning a code. -/
theorem clock_time_get_float_spec (nowMs : Nat) (perf : ℚ) (id : Int)
    (offset : Nat) (mem : List Nat)
    (hoff : offset + 8 ≤ mem.length)
    (hreal : fl64Nat (nowMs * 1000000) < 18446744073709551616)
    (hperf0 : 0 ≤ perf) (hperf1 : perf < 2147483648) :
    (∃ m0, clock_time_get nowMs perf 0 offset mem = .ok (m0, ERRNO_SUCCESS) ∧
      getU64 m0 offset = fl64Nat (nowMs * 1000000) ∧
      (nowMs * 1000000 < 9007199254740992 →
        getU64 m0 offset = nowMs * 1000000 ∧ 1000000 ∣ getU64 m0 offset)) ∧
    (∃ m1, clock_time_get nowMs perf 1 offset mem = .ok (m1, ERRNO_SUCCESS) ∧
      getU64 m1 offset
        = (⌊perf⌋).toNat * 1000000000
          + (jsToInt32 (fl64Rat ((perf - (⌊perf⌋ : ℚ)) * 1000))).toNat
            * 1000000) ∧
    (id ≠ 0 → id ≠ 1 →
      clock_time_get nowMs perf id offset mem = .error "Not implemented") := by
  have hs : jsToInt32 perf = ⌊perf⌋ := jsToInt32_of_small perf hperf0 hperf1
  have hfl : (⌊perf⌋ : ℚ) ≤ perf := Int.floor_le perf
  have hfu : perf < ⌊perf⌋ + 1 := Int.lt_floor_add_one perf
  have hx0 : (0 : ℚ) ≤ (perf - (⌊perf⌋ : ℚ)) * 1000 := by nlinarith
  have hF0 : 0 ≤ fl64Rat ((perf - (⌊perf⌋ : ℚ)) * 1000) := fl64Rat_nonneg _ hx0
  have hF2 : fl64Rat ((perf - (⌊perf⌋ : ℚ)) * 1000)
      ≤ 2 * ((perf - (⌊perf⌋ : ℚ)) * 1000) + 1 := fl64Rat_le _ hx0
  have hx1 : (perf - (⌊perf⌋ : ℚ)) * 1000 < 1000 := by nlinarith
  have hF1 : fl64Rat ((perf - (⌊perf⌋ : ℚ)) * 1000) < 2147483648 := by linarith
  have hms : jsToInt32 (fl64Rat ((perf - (⌊perf⌋ : ℚ)) * 1000))
      = ⌊fl64Rat ((perf - (⌊perf⌋ : ℚ)) * 1000)⌋ := jsToInt32_of_small _ hF0 hF1
  have hsl : (0 : Int) ≤ ⌊perf⌋ := Int.floor_nonneg.mpr hperf0
  have hsu : ⌊perf⌋ < 2147483648 := by
    rw [Int.floor_lt]
    exact_mod_cast hperf1
  have hml : (0 : Int) ≤ ⌊fl64Rat ((perf - (⌊perf⌋ : ℚ)) * 1000)⌋ :=
    Int.floor_nonneg.mpr hF0
  have hmu : ⌊fl64Rat ((perf - (⌊perf⌋ : ℚ)) * 1000)⌋ < 2147483648 := by
    rw [Int.floor_lt]
    exact_mod_cast hF1
  refine ⟨?_, ?_, ?_⟩
  · refine ⟨setU64 mem offset (fl64Nat (nowMs * 1000000)), rfl,
      getU64_setU64 mem offset _ hoff hreal, fun hsmall => ?_⟩
    have hid : fl64Nat (nowMs * 1000000) = nowMs * 1000000 := by
      unfold fl64Nat
      rw [if_pos hsmall]
    rw [getU64_setU64 mem offset _ hoff hreal, hid]
    exact ⟨rfl, ⟨nowMs, by ring⟩⟩
  · have e0 : ((1 : Int) = 0) = False := by simp
    have e1 : ((1 : Int) = 1) = True := by simp
    have hbranch : clock_time_get nowMs perf 1 offset mem
        = .ok (setU64 mem offset
            ((⌊perf⌋ * 1000000000
              + jsToInt32 (fl64Rat ((perf - (⌊perf⌋ : ℚ)) * 1000)) * 1000000)
              % 18446744073709551616).toNat, ERRNO_SUCCESS) := by
      simp only [clock_time_get, CLOCKID_REALTIME, CLOCKID_MONOTONIC, e0, e1,
        if_false, if_true, hs]
    refine ⟨_, hbranch, ?_⟩
    rw [hms]
    have hmod : (⌊perf⌋ * 1000000000
        + ⌊fl64Rat ((perf - (⌊perf⌋ : ℚ)) * 1000)⌋ * 1000000)
        % 18446744073709551616
        = ⌊perf⌋ * 1000000000
          + ⌊fl64Rat ((perf - (⌊perf⌋ : ℚ)) * 1000)⌋ * 1000000 :=
      Int.emod_eq_of_lt (by omega) (by omega)
    rw [hmod, getU64_setU64 mem offset _ hoff (by omega)]
    omega
  · intro hid0 hid1
    simp [clock_time_get, CLOCKID_REALTIME, CLOCKID_MONOTONIC, hid0, hid1]

/-- Claim C8 witness: wall clock 1000 ms (product below 2^53, so stored
exactly), monotonic timer reading 3/2 ms, and the unsupported clock id 2,
over an 8-byte memory. -/
theorem clock_time_get_float_spec_witness :
    (0 + 8 ≤ (List.replicate 8 0 : List Nat).length ∧
      fl64Nat (1000 * 1000000) < 18446744073709551616 ∧
      (0 : ℚ) ≤ 3 / 2 ∧ (3 / 2 : ℚ) < 2147483648) ∧
    ((∃ m0, clock_time_get 1000 (3 / 2) 0 0 (List.replicate 8 0)
          = .ok (m0, ERRNO_SUCCESS) ∧
        getU64 m0 0 = fl64Nat (1000 * 1000000) ∧
        (1000 * 1000000 < 9007199254740992 →
          getU64 m0 0 = 1000 * 1000000 ∧ 1000000 ∣ getU64 m0 0)) ∧
      (∃ m1, clock_time_get 1000 (3 / 2) 1 0 (List.replicate 8 0)
          = .ok (m1, ERRNO_SUCCESS) ∧
        getU64 m1 0
          = (⌊(3 / 2 : ℚ)⌋).toNat * 1000000000
            + (jsToInt32 (fl64Rat (((3 / 2 : ℚ) - (⌊(3 / 2 : ℚ)⌋ : ℚ)) * 1000))).toNat
              * 1000000) ∧
      ((2 : Int) ≠ 0 → (2 : Int) ≠ 1 →
        clock_time_get 1000 (3 / 2) 2 0 (List.replicate 8 0)
          = .error "Not implemented")) :=
  ⟨⟨by decide, by decide, by norm_num, by norm_num⟩,
   clock_time_get_float_spec 1000 (3 / 2) 2 0 (List.replicate 8 0)
     (by decide) (by decide) (by norm_num) (by norm_num)⟩

/-- Claim C9: through the page's memoized driver, `n` invocations compile
the module at most once (exactly once as soon as one invocation runs), while
every invocation instantiates its own fresh guest instance (instance ids are
exactly `0, …, n-1`, pairwise distinct, hence with per-invocation syscall
table and memory), all running the single shared compiled module (module id
0). -/
theorem single_compilation_fresh_instances (n : Nat) :
    (renders n World.init).2.compileCount = min n 1 ∧
    (renders n World.init).1.map Inst.id = List.range n ∧
    ((renders n World.init).1.map Inst.id).Nodup ∧
    ∀ i ∈ (renders n World.init).1, i.modId = 0 := by
  cases n with
  | zero => simp [renders, World.init]
  | succ k =>
    have hrender : render World.init = (⟨0, 0⟩, ⟨1, some ⟨0⟩, 1⟩) := rfl
    obtain ⟨h1, h2, h3⟩ := renders_cached k ⟨1, some ⟨0⟩, 1⟩ ⟨0⟩ rfl
    have hmap : (renders (k + 1) World.init).1.map Inst.id = List.range (k + 1) := by
      simp only [renders, hrender, List.map_cons, h2]
      rw [List.range_eq_range', List.range'_succ]
    refine ⟨?_, hmap, ?_, ?_⟩
    · simpa [renders, hrender] using h1
    · rw [hmap]; exact List.nodup_range _
    · intro i hi
      simp only [renders, hrender, List.mem_cons] at hi
      rcases hi with hi | hi
      · simp [hi]
      · exact h3 i hi

/-- Claim C10: on the no-sink path of `fd_write` (fd 1 without stdout, fd 2
without stderr) guest memory — in particular the `nwritten` cell — is left
unchanged, while on the configured-stream path the total byte count written
to the sink is stored into the `nwritten` cell before returning. -/
theorem fd_write_nwritten_frame (stdoutCfg stderrCfg : Bool)
    (iovp iovlen nwrittenp : Nat) (mem : List Nat)
    (hp : nwrittenp + 4 ≤ mem.length)
    (hfit : (fd_write_loop iovlen 0 iovp mem).2 < 4294967296) :
    (fd_write false stderrCfg 1 iovp iovlen nwrittenp mem).mem = mem ∧
    (fd_write stdoutCfg false 2 iovp iovlen nwrittenp mem).mem = mem ∧
    getU32 (fd_write true stderrCfg 1 iovp iovlen nwrittenp mem).mem nwrittenp
      = (fd_write true stderrCfg 1 iovp iovlen nwrittenp mem).out.length ∧
    getU32 (fd_write stdoutCfg true 2 iovp iovlen nwrittenp mem).mem nwrittenp
      = (fd_write stdoutCfg true 2 iovp iovlen nwrittenp mem).err.length := by
  refine ⟨by simp [fd_write], by simp [fd_write], ?_, ?_⟩
  · simp only [fd_write, if_pos rfl, if_pos trivial]
    rw [getU32_setU32 mem nwrittenp _ hp hfit]
    exact fd_write_loop_snd_eq_length iovlen 0 iovp mem
  · have h21 : ((2 : Int) = 1) = False := by simp
    simp only [fd_write, h21, if_false, if_pos rfl, if_pos trivial]
    rw [getU32_setU32 mem nwrittenp _ hp hfit]
    exact fd_write_loop_snd_eq_length iovlen 0 iovp mem

/-- Claim C10 witness: one iovec (offset 16, length 2) against a configured
stdout stores 2 into the `nwritten` cell; with no sink, memory is unchanged. -/
theorem fd_write_nwritten_frame_witness :
    (24 + 4 ≤ (setU32 (setU32 (List.replicate 32 0) 0 16) 4 2).length ∧
      (fd_write_loop 1 0 0 (setU32 (setU32 (List.replicate 32 0) 0 16) 4 2)).2
        < 4294967296) ∧
    ((fd_write false true 1 0 1 24 (setU32 (setU32 (List.replicate 32 0) 0 16) 4 2)).mem
        = setU32 (setU32 (List.replicate 32 0) 0 16) 4 2 ∧
      (fd_write true false 2 0 1 24 (setU32 (setU32 (List.replicate 32 0) 0 16) 4 2)).mem
        = setU32 (setU32 (List.replicate 32 0) 0 16) 4 2 ∧
      getU32 (fd_write true true 1 0 1 24
          (setU32 (setU32 (List.replicate 32 0) 0 16) 4 2)).mem 24
        = (fd_write true true 1 0 1 24
          (setU32 (setU32 (List.replicate 32 0) 0 16) 4 2)).out.length ∧
      getU32 (fd_write true true 2 0 1 24
          (setU32 (setU32 (List.replicate 32 0) 0 16) 4 2)).mem 24
        = (fd_write true true 2 0 1 24
          (setU32 (setU32 (List.replicate 32 0) 0 16) 4 2)).err.length) :=
  ⟨⟨by decide, by decide⟩,
   fd_write_nwritten_frame true true 0 1 24
     (setU32 (setU32 (List.replicate 32 0) 0 16) 4 2) (by decide) (by decide)⟩

end MyPandoc
